import Mathlib

/-!
Shallow embedding of the Mesa NIR pass `nir_lower_system_values`
(`src/glsl/nir/nir_lower_system_values.c`).  The pass rewrites every
`load_var` intrinsic whose variable has mode `nir_var_system_value` into a
computation over newly inserted lower-level system-value intrinsic reads,
redirects all uses of the removed instruction's SSA destination to the new
value, and removes the instruction.  We model SSA values by natural-number
indices, instructions as a tagged variant type, blocks as instruction lists,
and the builder's fresh-SSA allocation by a counter threaded through the
conversion.  32-bit integer arithmetic is modelled on `Nat` with explicit
reduction modulo `2 ^ 32`.
-/

/-- Modulus of 32-bit unsigned arithmetic (`nir_iadd` / `nir_imul` on u32). -/
def u32Mod : Nat := 2 ^ 32

/-- Variable modes relevant to the pass: `nir_var_system_value` versus every
other mode (`nir_var_global`, `nir_var_local`, ...), which the pass skips. -/
inductive VarMode
  | systemValue
  | otherMode
deriving DecidableEq, Repr

/-- The `SYSTEM_VALUE_*` enumeration (`var->data.location`): the four kinds
with dedicated switch cases, and `other n` for every remaining kind handled
by the default branch. -/
inductive SystemValueKind
  | globalInvocationId
  | localInvocationIndex
  | vertexId
  | instanceIndex
  | other (n : Nat)
deriving DecidableEq, Repr

/-- A `nir_variable`: its storage mode and its system-value location. -/
structure Variable where
  mode : VarMode
  location : SystemValueKind
deriving DecidableEq, Repr

/-- Lower-level intrinsic kinds inserted by the pass.  `fromSystemValue n` is
the image of the default-branch mapping table for the other kind `n`.

Modelled from the spec: the table `nir_intrinsic_from_system_value` is not
part of the given sources; the spec describes it as an opaque one-to-one
mapping from the system-value enumeration to a lower-level intrinsic kind,
which the constructor `fromSystemValue` realises. -/
inductive IntrinsicOp
  | loadWorkGroupId
  | loadLocalInvocationId
  | loadVertexIdZeroBase
  | loadBaseVertex
  | loadVertexId
  | loadInstanceId
  | loadBaseInstance
  | fromSystemValue (n : Nat)
deriving DecidableEq, Repr

/-- ALU operations the pass builds (`nir_iadd`, `nir_imul`). -/
inductive AluOp
  | iadd
  | imul
deriving DecidableEq, Repr

/-- Instructions, each defining the SSA index given as first argument:
`loadVar` is the `nir_intrinsic_load_var` read of a variable; `intrin` is a
lower-level system-value intrinsic read (`nir_load_system_value`); `alu` is a
two-source ALU instruction; `imm` is a load-constant (`nir_build_imm` /
`nir_imm_int`); `channel` extracts one component (`nir_channel`);
`otherInstr` stands for any other instruction, recording only its SSA uses. -/
inductive Instr
  | loadVar (dest : Nat) (var : Variable)
  | intrin (dest : Nat) (op : IntrinsicOp)
  | alu (dest : Nat) (op : AluOp) (src1 src2 : Nat)
  | imm (dest : Nat) (vals : List Nat)
  | channel (dest : Nat) (src : Nat) (comp : Nat)
  | otherInstr (dest : Nat) (srcs : List Nat)
deriving DecidableEq, Repr

/-- A basic block is its ordered instruction list. -/
abbrev Block := List Instr

/-- Shader-level compute metadata: `shader->info.cs.local_size[0..2]`. -/
structure ShaderInfo where
  localSize0 : Nat
  localSize1 : Nat
  localSize2 : Nat
deriving DecidableEq, Repr

/-- Driver options: `shader->options->vertex_id_zero_based`. -/
structure Options where
  vertexIdZeroBased : Bool
deriving DecidableEq, Repr

/-- Replacement builder, one case per `switch (var->data.location)` branch of
`convert_block`.  Given the fresh-SSA counter `ctr` it returns the list of
instructions inserted after the `load_var` (in builder emission order), the
counter after the insertions, and the SSA index of the computed `sysval`. -/
def buildSysval (info : ShaderInfo) (opts : Options) (loc : SystemValueKind)
    (ctr : Nat) : List Instr × Nat × Nat :=
  match loc with
  | .globalInvocationId =>
    ([ Instr.intrin ctr IntrinsicOp.loadWorkGroupId,
       Instr.intrin (ctr + 1) IntrinsicOp.loadLocalInvocationId,
       Instr.imm (ctr + 2) [info.localSize0, info.localSize1, info.localSize2],
       Instr.alu (ctr + 3) AluOp.imul ctr (ctr + 2),
       Instr.alu (ctr + 4) AluOp.iadd (ctr + 3) (ctr + 1) ],
     ctr + 5, ctr + 4)
  | .localInvocationIndex =>
    ([ Instr.intrin ctr IntrinsicOp.loadLocalInvocationId,
       Instr.imm (ctr + 1) [info.localSize0],
       Instr.imm (ctr + 2) [info.localSize1],
       Instr.channel (ctr + 3) ctr 2,
       Instr.alu (ctr + 4) AluOp.imul (ctr + 1) (ctr + 2),
       Instr.alu (ctr + 5) AluOp.imul (ctr + 3) (ctr + 4),
       Instr.channel (ctr + 6) ctr 1,
       Instr.alu (ctr + 7) AluOp.imul (ctr + 6) (ctr + 1),
       Instr.alu (ctr + 8) AluOp.iadd (ctr + 5) (ctr + 7),
       Instr.channel (ctr + 9) ctr 0,
       Instr.alu (ctr + 10) AluOp.iadd (ctr + 8) (ctr + 9) ],
     ctr + 11, ctr + 10)
  | .vertexId =>
    if opts.vertexIdZeroBased then
      ([ Instr.intrin ctr IntrinsicOp.loadVertexIdZeroBase,
         Instr.intrin (ctr + 1) IntrinsicOp.loadBaseVertex,
         Instr.alu (ctr + 2) AluOp.iadd ctr (ctr + 1) ],
       ctr + 3, ctr + 2)
    else
      ([ Instr.intrin ctr IntrinsicOp.loadVertexId ], ctr + 1, ctr)
  | .instanceIndex =>
    ([ Instr.intrin ctr IntrinsicOp.loadInstanceId,
       Instr.intrin (ctr + 1) IntrinsicOp.loadBaseInstance,
       Instr.alu (ctr + 2) AluOp.iadd ctr (ctr + 1) ],
     ctr + 3, ctr + 2)
  | .other n =>
    ([ Instr.intrin ctr (IntrinsicOp.fromSystemValue n) ], ctr + 1, ctr)

/-- Values delivered by the execution environment to the lower-level
intrinsic reads, plus ambient values for instructions the model leaves
uninterpreted. -/
structure SysEnv where
  workGroupId : List Nat
  localInvocationId : List Nat
  vertexIdZeroBase : Nat
  baseVertex : Nat
  vertexId : Nat
  instanceId : Nat
  baseInstance : Nat
  mapped : Nat → Nat
  ambient : Nat → List Nat

/-- Value read by a lower-level intrinsic. -/
def evalIntrin (env : SysEnv) : IntrinsicOp → List Nat
  | .loadWorkGroupId => env.workGroupId
  | .loadLocalInvocationId => env.localInvocationId
  | .loadVertexIdZeroBase => [env.vertexIdZeroBase]
  | .loadBaseVertex => [env.baseVertex]
  | .loadVertexId => [env.vertexId]
  | .loadInstanceId => [env.instanceId]
  | .loadBaseInstance => [env.baseInstance]
  | .fromSystemValue n => [env.mapped n]

/-- 32-bit componentwise ALU semantics. -/
def evalAlu : AluOp → Nat → Nat → Nat
  | .iadd, a, b => (a + b) % u32Mod
  | .imul, a, b => (a * b) % u32Mod

/-- Valuation update at one SSA index. -/
def updateVal (vals : Nat → List Nat) (d : Nat) (v : List Nat) :
    Nat → List Nat :=
  fun i => if i = d then v else vals i

/-- One-step evaluation of an instruction over a valuation of SSA indices. -/
def evalInstr (env : SysEnv) (vals : Nat → List Nat) : Instr →
    (Nat → List Nat)
  | .loadVar d _ => updateVal vals d (env.ambient d)
  | .intrin d op => updateVal vals d (evalIntrin env op)
  | .alu d op a b =>
      updateVal vals d (List.zipWith (evalAlu op) (vals a) (vals b))
  | .imm d vs => updateVal vals d vs
  | .channel d s c => updateVal vals d [(vals s).getD c 0]
  | .otherInstr d _ => updateVal vals d (env.ambient d)

/-- Evaluation of an instruction sequence. -/
def evalInstrs (env : SysEnv) (vals : Nat → List Nat) :
    List Instr → (Nat → List Nat)
  | [] => vals
  | i :: is => evalInstrs env (evalInstr env vals i) is

/-- SSA uses (source operands) of an instruction. -/
def Instr.uses : Instr → List Nat
  | .alu _ _ a b => [a, b]
  | .channel _ s _ => [s]
  | .otherInstr _ srcs => srcs
  | _ => []

/-- SSA destination index of an instruction. -/
def Instr.dest : Instr → Nat
  | .loadVar d _ => d
  | .intrin d _ => d
  | .alu d _ _ _ => d
  | .imm d _ => d
  | .channel d _ _ => d
  | .otherInstr d _ => d

/-- Whether the instruction is a `load_var` of a system-value variable: the
three guards of `convert_block` (intrinsic instruction, `load_var` kind,
variable mode `nir_var_system_value`). -/
def Instr.isSysvalLoad : Instr → Bool
  | .loadVar _ var => decide (var.mode = VarMode.systemValue)
  | _ => false

/-- Source rewriting of a single use (`nir_ssa_def_rewrite_uses`): a source
equal to `o` is redirected to `n`. -/
def substSrc (o n s : Nat) : Nat := if s = o then n else s

/-- Redirect every use of `o` in one instruction to `n`. -/
def Instr.rewriteUses (o n : Nat) : Instr → Instr
  | .alu d op a b => .alu d op (substSrc o n a) (substSrc o n b)
  | .channel d s c => .channel d (substSrc o n s) c
  | .otherInstr d srcs => .otherInstr d (srcs.map (substSrc o n))
  | i => i

/-- Redirect every use of `o` in one block to `n`. -/
def Block.rewriteUses (o n : Nat) (b : Block) : Block :=
  b.map (Instr.rewriteUses o n)

/-- The `nir_foreach_instr_safe` loop of `convert_block`, combined with the
surrounding state: `db` are the already-processed blocks of the function,
`done` the processed prefix of the current block, `rest` its remaining
instructions, `rbs` the remaining blocks, `ctr` the fresh-SSA counter of the
builder and `prog` the progress flag.  A `load_var` of a system-value
variable is replaced by the instructions of `buildSysval` inserted in its
place; all uses of its destination anywhere in the function are redirected
to the computed value (`nir_ssa_def_rewrite_uses`) and the instruction is
removed (`nir_instr_remove`).  Newly inserted instructions are not revisited
(the safe iteration continues at the cached successor). -/
def convertInstrs (info : ShaderInfo) (opts : Options) (db : List Block)
    (done rest : List Instr) (rbs : List Block) (ctr : Nat) (prog : Bool) :
    List Block × List Instr × List Block × Nat × Bool :=
  match rest with
  | [] => (db, done, rbs, ctr, prog)
  | instr :: rest' =>
    match instr with
    | .loadVar d var =>
      if var.mode = VarMode.systemValue then
        let r := buildSysval info opts var.location ctr
        convertInstrs info opts
          (db.map (Block.rewriteUses d r.2.2))
          ((done ++ r.1).map (Instr.rewriteUses d r.2.2))
          (rest'.map (Instr.rewriteUses d r.2.2))
          (rbs.map (Block.rewriteUses d r.2.2))
          r.2.1 true
      else
        convertInstrs info opts db (done ++ [instr]) rest' rbs ctr prog
    | _ => convertInstrs info opts db (done ++ [instr]) rest' rbs ctr prog
termination_by rest.length
decreasing_by all_goals simp [List.length_map]

theorem convertInstrs_rbs_length (info : ShaderInfo) (opts : Options)
    (db : List Block) (done rest : List Instr) (rbs : List Block) (ctr : Nat)
    (prog : Bool) :
    (convertInstrs info opts db done rest rbs ctr prog).2.2.1.length
      = rbs.length := by
  induction db, done, rest, rbs, ctr, prog using convertInstrs.induct info opts with
  | case1 db done rbs ctr prog => simp [convertInstrs]
  | case2 db done rbs ctr prog is dest var hm r ih =>
    rw [convertInstrs]
    rw [if_pos hm]
    exact ih.trans (by simp)
  | case3 db done rbs ctr prog is dest var hm ih =>
    rw [convertInstrs]
    rw [if_neg hm]
    exact ih
  | case4 db done rbs ctr prog i is hne ih =>
    cases i <;>
      first
        | exact (hne _ _ rfl).elim
        | (rw [convertInstrs] <;> first | exact ih | nofun)

set_option linter.unusedVariables false in
/-- The `nir_foreach_block` traversal of `convert_impl`: pop each remaining
block, run the instruction loop of `convert_block` on it (with the already
processed blocks `db` visible to use rewriting), and append the processed
block.  Returns the processed blocks, the final fresh-SSA counter and the
progress flag. -/
def convertBlocks (info : ShaderInfo) (opts : Options) (db : List Block)
    (rbs : List Block) (ctr : Nat) (prog : Bool) :
    List Block × Nat × Bool :=
  match rbs with
  | [] => (db, ctr, prog)
  | b :: bs =>
    match hc : convertInstrs info opts db [] b bs ctr prog with
    | (db2, done2, rbs2, ctr2, prog2) =>
      convertBlocks info opts (db2 ++ [done2]) rbs2 ctr2 prog2
termination_by rbs.length
decreasing_by
  have hl := convertInstrs_rbs_length info opts db [] b bs ctr prog
  rw [hc] at hl
  simp only [List.length_cons] at hl ⊢
  omega

/-- Analysis metadata validity flags of a function implementation
(`impl->valid_metadata`): block indices, dominance, and a representative
other analysis (live variables) that the pass does not declare preserved. -/
structure Metadata where
  blockIndex : Bool
  dominance : Bool
  liveVariables : Bool
deriving DecidableEq, Repr

/-- The `nir_metadata_preserve` mask semantics: `valid_metadata &= preserved`. -/
def Metadata.preserve (m mask : Metadata) : Metadata :=
  ⟨m.blockIndex && mask.blockIndex, m.dominance && mask.dominance,
   m.liveVariables && mask.liveVariables⟩

/-- The mask `nir_metadata_block_index | nir_metadata_dominance` passed by
`convert_impl`. -/
def blockIndexDominanceMask : Metadata := ⟨true, true, false⟩

/-- A `nir_function_impl`: control-flow graph blocks, the edges between them
(which the pass never touches), the fresh-SSA allocation counter
(`impl->ssa_alloc`) and the validity flags of cached analyses. -/
structure FunctionImpl where
  blocks : List Block
  edges : List (Nat × Nat)
  ssaAlloc : Nat
  validMetadata : Metadata
deriving DecidableEq, Repr

/-- The per-function pass `convert_impl`: initialise the builder, run
`convert_block` on every block, then preserve block-index and dominance
metadata; returns the rewritten implementation and the progress flag. -/
def convert_impl (info : ShaderInfo) (opts : Options) (impl : FunctionImpl) :
    FunctionImpl × Bool :=
  let r := convertBlocks info opts [] impl.blocks impl.ssaAlloc false
  ({ impl with
      blocks := r.1,
      ssaAlloc := r.2.1,
      validMetadata :=
        Metadata.preserve impl.validMetadata blockIndexDominanceMask },
   r.2.2)

/-- A `nir_function`: external declarations have no implementation. -/
structure NirFunction where
  name : Nat
  impl : Option FunctionImpl
deriving DecidableEq, Repr

/-- A `nir_shader`: its functions, compute metadata, driver options and the
declared list of system-value variables (`shader->system_values`). -/
structure Shader where
  info : ShaderInfo
  options : Options
  functions : List NirFunction
  systemValues : List Variable

/-- The `nir_foreach_function` loop of `nir_lower_system_values`: every
function with an implementation is processed by `convert_impl` and progress
is aggregated by logical OR. -/
def lowerFunctions (info : ShaderInfo) (opts : Options) :
    List NirFunction → List NirFunction × Bool
  | [] => ([], false)
  | f :: fs =>
    match f.impl with
    | some impl =>
      let r := convert_impl info opts impl
      let rest := lowerFunctions info opts fs
      ({ f with impl := some r.1 } :: rest.1, r.2 || rest.2)
    | none =>
      let rest := lowerFunctions info opts fs
      (f :: rest.1, rest.2)

/-- The top-level pass `nir_lower_system_values`: process every function,
unconditionally clear the shader's declared system-value variable list
(`exec_list_make_empty(&shader->system_values)`) and return the aggregated
progress flag. -/
def nir_lower_system_values (sh : Shader) : Shader × Bool :=
  let r := lowerFunctions sh.info sh.options sh.functions
  ({ sh with functions := r.1, systemValues := [] }, r.2)

theorem substSrc_killed (d n s : Nat) (hn : n ≠ d) : substSrc d n s ≠ d := by
  unfold substSrc
  split
  · exact hn
  · next h => exact h

theorem substSrc_pres (o n s d : Nat) (hn : n ≠ d) (hs : s ≠ d) :
    substSrc o n s ≠ d := by
  unfold substSrc
  split
  · exact hn
  · exact hs

theorem rewriteUses_kills (d n : Nat) (i : Instr) (hn : n ≠ d) :
    d ∉ (Instr.rewriteUses d n i).uses := by
  cases i <;> simp [Instr.rewriteUses, Instr.uses]
  case alu a b =>
    exact ⟨fun h => substSrc_killed d n a hn h.symm,
           fun h => substSrc_killed d n b hn h.symm⟩
  case channel s c =>
    exact fun h => substSrc_killed d n s hn h.symm
  case otherInstr srcs =>
    intro s _ h
    exact substSrc_killed d n s hn h

theorem rewriteUses_pres (o n d : Nat) (i : Instr) (hn : n ≠ d)
    (hi : d ∉ i.uses) : d ∉ (Instr.rewriteUses o n i).uses := by
  cases i <;> simp_all [Instr.rewriteUses, Instr.uses]
  case alu a b =>
    exact ⟨fun h => substSrc_pres o n a d hn (fun h2 => hi.1 h2.symm) h.symm,
           fun h => substSrc_pres o n b d hn (fun h2 => hi.2 h2.symm) h.symm⟩
  case channel s c =>
    exact fun h => substSrc_pres o n s d hn (fun h2 => hi h2.symm) h.symm
  case otherInstr srcs =>
    intro s hs h
    exact substSrc_pres o n s d hn (fun he => hi (he ▸ hs)) h

theorem rewriteUses_isSysvalLoad (o n : Nat) (i : Instr) :
    (Instr.rewriteUses o n i).isSysvalLoad = i.isSysvalLoad := by
  cases i <;> rfl

theorem rewriteUses_loadVar (o n d : Nat) (var : Variable) :
    Instr.rewriteUses o n (Instr.loadVar d var) = Instr.loadVar d var := rfl

theorem buildSysval_uses_ge (info : ShaderInfo) (opts : Options)
    (loc : SystemValueKind) (ctr : Nat) :
    ∀ i ∈ (buildSysval info opts loc ctr).1, ∀ u ∈ i.uses, ctr ≤ u := by
  cases loc <;> simp [buildSysval, Instr.uses]
  case vertexId =>
    split <;> simp [Instr.uses]

theorem buildSysval_value_ge (info : ShaderInfo) (opts : Options)
    (loc : SystemValueKind) (ctr : Nat) :
    ctr ≤ (buildSysval info opts loc ctr).2.2 := by
  cases loc <;> simp [buildSysval]
  case vertexId => split <;> simp

theorem buildSysval_ctr_le (info : ShaderInfo) (opts : Options)
    (loc : SystemValueKind) (ctr : Nat) :
    ctr ≤ (buildSysval info opts loc ctr).2.1 := by
  cases loc <;> simp [buildSysval]
  case vertexId => split <;> simp

theorem buildSysval_not_sysvalLoad (info : ShaderInfo) (opts : Options)
    (loc : SystemValueKind) (ctr : Nat) :
    ∀ i ∈ (buildSysval info opts loc ctr).1, i.isSysvalLoad = false := by
  cases loc <;> simp [buildSysval, Instr.isSysvalLoad]
  case vertexId => split <;> simp [Instr.isSysvalLoad]

theorem instrs_noUse_map (o n d : Nat) (hn : n ≠ d) (is : List Instr)
    (h : ∀ i ∈ is, d ∉ i.uses) :
    ∀ i ∈ is.map (Instr.rewriteUses o n), d ∉ i.uses := by
  intro i hi
  rcases List.mem_map.mp hi with ⟨i0, hi0, rfl⟩
  exact rewriteUses_pres o n d i0 hn (h i0 hi0)

theorem blocks_noUse_map (o n d : Nat) (hn : n ≠ d) (bs : List Block)
    (h : ∀ b ∈ bs, ∀ i ∈ b, d ∉ i.uses) :
    ∀ b ∈ bs.map (Block.rewriteUses o n), ∀ i ∈ b, d ∉ i.uses := by
  intro b hb
  rcases List.mem_map.mp hb with ⟨b0, hb0, rfl⟩
  exact instrs_noUse_map o n d hn b0 (h b0 hb0)

theorem instrs_noUse_map_kill (d n : Nat) (hn : n ≠ d) (is : List Instr) :
    ∀ i ∈ is.map (Instr.rewriteUses d n), d ∉ i.uses := by
  intro i hi
  rcases List.mem_map.mp hi with ⟨i0, _, rfl⟩
  exact rewriteUses_kills d n i0 hn

theorem blocks_noUse_map_kill (d n : Nat) (hn : n ≠ d) (bs : List Block) :
    ∀ b ∈ bs.map (Block.rewriteUses d n), ∀ i ∈ b, d ∉ i.uses := by
  intro b hb
  rcases List.mem_map.mp hb with ⟨b0, _, rfl⟩
  exact instrs_noUse_map_kill d n hn b0

theorem instrs_free_map (o n : Nat) (is : List Instr)
    (h : ∀ i ∈ is, i.isSysvalLoad = false) :
    ∀ i ∈ is.map (Instr.rewriteUses o n), i.isSysvalLoad = false := by
  intro i hi
  rcases List.mem_map.mp hi with ⟨i0, hi0, rfl⟩
  rw [rewriteUses_isSysvalLoad]
  exact h i0 hi0

theorem blocks_free_map (o n : Nat) (bs : List Block)
    (h : ∀ b ∈ bs, ∀ i ∈ b, i.isSysvalLoad = false) :
    ∀ b ∈ bs.map (Block.rewriteUses o n), ∀ i ∈ b, i.isSysvalLoad = false := by
  intro b hb
  rcases List.mem_map.mp hb with ⟨b0, hb0, rfl⟩
  exact instrs_free_map o n b0 (h b0 hb0)

theorem convertInstrs_ctr_le (info : ShaderInfo) (opts : Options)
    (db : List Block) (done rest : List Instr) (rbs : List Block) (ctr : Nat)
    (prog : Bool) :
    ctr ≤ (convertInstrs info opts db done rest rbs ctr prog).2.2.2.1 := by
  induction db, done, rest, rbs, ctr, prog using convertInstrs.induct info opts with
  | case1 db done rbs ctr prog => simp [convertInstrs]
  | case2 db done rbs ctr prog is dest var hm r ih =>
    rw [convertInstrs]
    rw [if_pos hm]
    exact le_trans (buildSysval_ctr_le info opts var.location ctr) ih
  | case3 db done rbs ctr prog is dest var hm ih =>
    rw [convertInstrs]
    rw [if_neg hm]
    exact ih
  | case4 db done rbs ctr prog i is hne ih =>
    cases i <;>
      first
        | exact (hne _ _ rfl).elim
        | (rw [convertInstrs] <;> first | exact ih | nofun)

theorem convertInstrs_db_length (info : ShaderInfo) (opts : Options)
    (db : List Block) (done rest : List Instr) (rbs : List Block) (ctr : Nat)
    (prog : Bool) :
    (convertInstrs info opts db done rest rbs ctr prog).1.length
      = db.length := by
  induction db, done, rest, rbs, ctr, prog using convertInstrs.induct info opts with
  | case1 db done rbs ctr prog => simp [convertInstrs]
  | case2 db done rbs ctr prog is dest var hm r ih =>
    rw [convertInstrs]
    rw [if_pos hm]
    exact ih.trans (by simp)
  | case3 db done rbs ctr prog is dest var hm ih =>
    rw [convertInstrs]
    rw [if_neg hm]
    exact ih
  | case4 db done rbs ctr prog i is hne ih =>
    cases i <;>
      first
        | exact (hne _ _ rfl).elim
        | (rw [convertInstrs] <;> first | exact ih | nofun)

theorem convertInstrs_progress (info : ShaderInfo) (opts : Options)
    (db : List Block) (done rest : List Instr) (rbs : List Block) (ctr : Nat)
    (prog : Bool) :
    (convertInstrs info opts db done rest rbs ctr prog).2.2.2.2
      = (prog || rest.any Instr.isSysvalLoad) := by
  induction db, done, rest, rbs, ctr, prog using convertInstrs.induct info opts with
  | case1 db done rbs ctr prog => simp [convertInstrs]
  | case2 db done rbs ctr prog is dest var hm r ih =>
    rw [convertInstrs]
    rw [if_pos hm]
    rw [ih]
    simp [Instr.isSysvalLoad, hm]
  | case3 db done rbs ctr prog is dest var hm ih =>
    rw [convertInstrs]
    rw [if_neg hm]
    rw [ih]
    simp [Instr.isSysvalLoad, hm]
  | case4 db done rbs ctr prog i is hne ih =>
    cases i <;>
      first
        | exact (hne _ _ rfl).elim
        | (rw [convertInstrs] <;>
            first | (rw [ih]; simp [Instr.isSysvalLoad]) | nofun)

theorem block_any_rewrite (o n : Nat) (b : Block) :
    (Block.rewriteUses o n b).any Instr.isSysvalLoad
      = b.any Instr.isSysvalLoad := by
  induction b with
  | nil => rfl
  | cons i is ih =>
    simp only [Block.rewriteUses, List.map_cons, List.any_cons] at ih ⊢
    rw [rewriteUses_isSysvalLoad, ih]

theorem convertInstrs_rbs_any (info : ShaderInfo) (opts : Options)
    (db : List Block) (done rest : List Instr) (rbs : List Block) (ctr : Nat)
    (prog : Bool) :
    ((convertInstrs info opts db done rest rbs ctr prog).2.2.1.any
        (fun b => b.any Instr.isSysvalLoad))
      = rbs.any (fun b => b.any Instr.isSysvalLoad) := by
  induction db, done, rest, rbs, ctr, prog using convertInstrs.induct info opts with
  | case1 db done rbs ctr prog => simp [convertInstrs]
  | case2 db done rbs ctr prog is dest var hm r ih =>
    rw [convertInstrs]
    rw [if_pos hm]
    exact ih.trans (by
      simp [List.any_map, Function.comp_def, block_any_rewrite])
  | case3 db done rbs ctr prog is dest var hm ih =>
    rw [convertInstrs]
    rw [if_neg hm]
    exact ih
  | case4 db done rbs ctr prog i is hne ih =>
    cases i <;>
      first
        | exact (hne _ _ rfl).elim
        | (rw [convertInstrs] <;> first | exact ih | nofun)

theorem convertInstrs_rbs_mem (info : ShaderInfo) (opts : Options)
    (db : List Block) (done rest : List Instr) (rbs : List Block) (ctr : Nat)
    (prog : Bool) (d : Nat) (var : Variable) :
    (∃ b ∈ rbs, Instr.loadVar d var ∈ b) →
    ∃ b ∈ (convertInstrs info opts db done rest rbs ctr prog).2.2.1,
      Instr.loadVar d var ∈ b := by
  induction db, done, rest, rbs, ctr, prog using convertInstrs.induct info opts with
  | case1 db done rbs ctr prog =>
    intro h
    simpa [convertInstrs] using h
  | case2 db done rbs ctr prog is dest var0 hm r ih =>
    intro h
    rw [convertInstrs]
    rw [if_pos hm]
    apply ih
    rcases h with ⟨b, hb, hmem⟩
    refine ⟨Block.rewriteUses dest r.2.2 b, List.mem_map_of_mem _ hb, ?_⟩
    rw [show Instr.loadVar d var
          = Instr.rewriteUses dest r.2.2 (Instr.loadVar d var) from rfl]
    exact List.mem_map_of_mem _ hmem
  | case3 db done rbs ctr prog is dest var0 hm ih =>
    intro h
    rw [convertInstrs]
    rw [if_neg hm]
    exact ih h
  | case4 db done rbs ctr prog i is hne ih =>
    intro h
    cases i <;>
      first
        | exact (hne _ _ rfl).elim
        | (rw [convertInstrs] <;> first | exact ih h | nofun)

theorem convertInstrs_noUse (info : ShaderInfo) (opts : Options)
    (db : List Block) (done rest : List Instr) (rbs : List Block) (ctr : Nat)
    (prog : Bool) (d : Nat) :
    d < ctr →
    (∀ b ∈ db, ∀ i ∈ b, d ∉ i.uses) →
    (∀ i ∈ done, d ∉ i.uses) →
    (∀ i ∈ rest, d ∉ i.uses) →
    (∀ b ∈ rbs, ∀ i ∈ b, d ∉ i.uses) →
    (∀ b ∈ (convertInstrs info opts db done rest rbs ctr prog).1,
        ∀ i ∈ b, d ∉ i.uses) ∧
    (∀ i ∈ (convertInstrs info opts db done rest rbs ctr prog).2.1,
        d ∉ i.uses) ∧
    (∀ b ∈ (convertInstrs info opts db done rest rbs ctr prog).2.2.1,
        ∀ i ∈ b, d ∉ i.uses) := by
  induction db, done, rest, rbs, ctr, prog using convertInstrs.induct info opts with
  | case1 db done rbs ctr prog =>
    intro _ hdb hdone _ hrbs
    rw [convertInstrs]
    exact ⟨hdb, hdone, hrbs⟩
  | case2 db done rbs ctr prog is dest var0 hm r ih =>
    intro hlt hdb hdone hrest hrbs
    rw [convertInstrs]
    rw [if_pos hm]
    have hvne : r.2.2 ≠ d :=
      Nat.ne_of_gt (lt_of_lt_of_le hlt
        (buildSysval_value_ge info opts var0.location ctr))
    refine ih (lt_of_lt_of_le hlt (buildSysval_ctr_le info opts var0.location ctr))
      (blocks_noUse_map dest r.2.2 d hvne db hdb)
      (instrs_noUse_map dest r.2.2 d hvne (done ++ r.1) ?_)
      (instrs_noUse_map dest r.2.2 d hvne is
        (fun i hi => hrest i (List.mem_cons_of_mem _ hi)))
      (blocks_noUse_map dest r.2.2 d hvne rbs hrbs)
    intro i hi
    rcases List.mem_append.mp hi with hi | hi
    · exact hdone i hi
    · intro hu
      exact absurd (buildSysval_uses_ge info opts var0.location ctr i hi d hu)
        (Nat.not_le_of_lt hlt)
  | case3 db done rbs ctr prog is dest var0 hm ih =>
    intro hlt hdb hdone hrest hrbs
    rw [convertInstrs]
    rw [if_neg hm]
    refine ih hlt hdb ?_ (fun i hi => hrest i (List.mem_cons_of_mem _ hi)) hrbs
    intro i hi
    rcases List.mem_append.mp hi with hi | hi
    · exact hdone i hi
    · rw [List.mem_singleton.mp hi]
      exact hrest _ (List.mem_cons_self _ _)
  | case4 db done rbs ctr prog i is hne ih =>
    intro hlt hdb hdone hrest hrbs
    have hd2 : ∀ j ∈ done ++ [i], d ∉ j.uses := by
      intro j hj
      rcases List.mem_append.mp hj with hj | hj
      · exact hdone j hj
      · rw [List.mem_singleton.mp hj]
        exact hrest _ (List.mem_cons_self _ _)
    have hr2 : ∀ j ∈ is, d ∉ j.uses :=
      fun j hj => hrest j (List.mem_cons_of_mem _ hj)
    cases i <;>
      first
        | exact (hne _ _ rfl).elim
        | (rw [convertInstrs] <;>
            first | exact ih hlt hdb hd2 hr2 hrbs | nofun)

theorem convertInstrs_kill (info : ShaderInfo) (opts : Options)
    (db : List Block) (done rest : List Instr) (rbs : List Block) (ctr : Nat)
    (prog : Bool) (d : Nat) (var : Variable) :
    var.mode = VarMode.systemValue →
    d < ctr →
    Instr.loadVar d var ∈ rest →
    (∀ b ∈ (convertInstrs info opts db done rest rbs ctr prog).1,
        ∀ i ∈ b, d ∉ i.uses) ∧
    (∀ i ∈ (convertInstrs info opts db done rest rbs ctr prog).2.1,
        d ∉ i.uses) ∧
    (∀ b ∈ (convertInstrs info opts db done rest rbs ctr prog).2.2.1,
        ∀ i ∈ b, d ∉ i.uses) := by
  induction db, done, rest, rbs, ctr, prog using convertInstrs.induct info opts with
  | case1 db done rbs ctr prog =>
    intro _ _ hmem
    exact absurd hmem (List.not_mem_nil _)
  | case2 db done rbs ctr prog is dest var0 hm r ih =>
    intro hv hlt hmem
    rw [convertInstrs]
    rw [if_pos hm]
    rcases List.mem_cons.mp hmem with heq | hmem'
    · obtain ⟨rfl, rfl⟩ : d = dest ∧ var = var0 := by
        injection heq with h1 h2
        exact ⟨h1, h2⟩
      have hvne : r.2.2 ≠ d :=
        Nat.ne_of_gt (lt_of_lt_of_le hlt
          (buildSysval_value_ge info opts var.location ctr))
      exact convertInstrs_noUse info opts _ _ _ _ _ _ d
        (lt_of_lt_of_le hlt (buildSysval_ctr_le info opts var.location ctr))
        (blocks_noUse_map_kill d r.2.2 hvne db)
        (instrs_noUse_map_kill d r.2.2 hvne (done ++ r.1))
        (instrs_noUse_map_kill d r.2.2 hvne is)
        (blocks_noUse_map_kill d r.2.2 hvne rbs)
    · refine ih hv
        (lt_of_lt_of_le hlt (buildSysval_ctr_le info opts var0.location ctr)) ?_
      rw [show Instr.loadVar d var
            = Instr.rewriteUses dest r.2.2 (Instr.loadVar d var) from rfl]
      exact List.mem_map_of_mem _ hmem'
  | case3 db done rbs ctr prog is dest var0 hm ih =>
    intro hv hlt hmem
    rw [convertInstrs]
    rw [if_neg hm]
    rcases List.mem_cons.mp hmem with heq | hmem'
    · injection heq with h1 h2
      exact absurd (h2 ▸ hv) hm
    · exact ih hv hlt hmem'
  | case4 db done rbs ctr prog i is hne ih =>
    intro hv hlt hmem
    rcases List.mem_cons.mp hmem with heq | hmem'
    · exact (hne d var heq.symm).elim
    · cases i <;>
        first
          | exact (hne _ _ rfl).elim
          | (rw [convertInstrs] <;> first | exact ih hv hlt hmem' | nofun)

theorem convertInstrs_free (info : ShaderInfo) (opts : Options)
    (db : List Block) (done rest : List Instr) (rbs : List Block) (ctr : Nat)
    (prog : Bool) :
    (∀ b ∈ db, ∀ i ∈ b, i.isSysvalLoad = false) →
    (∀ i ∈ done, i.isSysvalLoad = false) →
    (∀ b ∈ (convertInstrs info opts db done rest rbs ctr prog).1,
        ∀ i ∈ b, i.isSysvalLoad = false) ∧
    (∀ i ∈ (convertInstrs info opts db done rest rbs ctr prog).2.1,
        i.isSysvalLoad = false) := by
  induction db, done, rest, rbs, ctr, prog using convertInstrs.induct info opts with
  | case1 db done rbs ctr prog =>
    intro hdb hdone
    rw [convertInstrs]
    exact ⟨hdb, hdone⟩
  | case2 db done rbs ctr prog is dest var0 hm r ih =>
    intro hdb hdone
    rw [convertInstrs]
    rw [if_pos hm]
    refine ih (blocks_free_map dest r.2.2 db hdb)
      (instrs_free_map dest r.2.2 (done ++ r.1) ?_)
    intro i hi
    rcases List.mem_append.mp hi with hi | hi
    · exact hdone i hi
    · exact buildSysval_not_sysvalLoad info opts var0.location ctr i hi
  | case3 db done rbs ctr prog is dest var0 hm ih =>
    intro hdb hdone
    rw [convertInstrs]
    rw [if_neg hm]
    refine ih hdb ?_
    intro i hi
    rcases List.mem_append.mp hi with hi | hi
    · exact hdone i hi
    · rw [List.mem_singleton.mp hi]
      simp [Instr.isSysvalLoad, hm]
  | case4 db done rbs ctr prog i is hne ih =>
    intro hdb hdone
    have hd2 : ∀ j ∈ done ++ [i], j.isSysvalLoad = false := by
      intro j hj
      rcases List.mem_append.mp hj with hj | hj
      · exact hdone j hj
      · rw [List.mem_singleton.mp hj]
        cases i <;> first | exact (hne _ _ rfl).elim | rfl
    cases i <;>
      first
        | exact (hne _ _ rfl).elim
        | (rw [convertInstrs] <;> first | exact ih hdb hd2 | nofun)

theorem convertInstrs_id (info : ShaderInfo) (opts : Options)
    (db : List Block) (done rest : List Instr) (rbs : List Block) (ctr : Nat)
    (prog : Bool) :
    (∀ i ∈ rest, i.isSysvalLoad = false) →
    convertInstrs info opts db done rest rbs ctr prog
      = (db, done ++ rest, rbs, ctr, prog) := by
  induction db, done, rest, rbs, ctr, prog using convertInstrs.induct info opts with
  | case1 db done rbs ctr prog =>
    intro _
    rw [convertInstrs]
    simp
  | case2 db done rbs ctr prog is dest var0 hm r ih =>
    intro hfree
    exact absurd (hfree _ (List.mem_cons_self _ _))
      (by simp [Instr.isSysvalLoad, hm])
  | case3 db done rbs ctr prog is dest var0 hm ih =>
    intro hfree
    rw [convertInstrs]
    rw [if_neg hm]
    rw [ih (fun i hi => hfree i (List.mem_cons_of_mem _ hi))]
    simp
  | case4 db done rbs ctr prog i is hne ih =>
    intro hfree
    have hf2 : ∀ j ∈ is, j.isSysvalLoad = false :=
      fun j hj => hfree j (List.mem_cons_of_mem _ hj)
    cases i <;>
      first
        | exact (hne _ _ rfl).elim
        | (rw [convertInstrs] <;>
            first | (rw [ih hf2]; simp) | nofun)

theorem convertBlocks_length (info : ShaderInfo) (opts : Options)
    (db rbs : List Block) (ctr : Nat) (prog : Bool) :
    (convertBlocks info opts db rbs ctr prog).1.length
      = db.length + rbs.length := by
  induction db, rbs, ctr, prog using convertBlocks.induct info opts with
  | case1 db ctr prog => simp [convertBlocks]
  | case2 db ctr prog b bs db2 done2 rbs2 ctr2 prog2 heq ih =>
    rw [convertBlocks, heq]
    refine ih.trans ?_
    have h1 := convertInstrs_db_length info opts db [] b bs ctr prog
    have h2 := convertInstrs_rbs_length info opts db [] b bs ctr prog
    rw [heq] at h1 h2
    simp at h1 h2 ⊢
    omega

theorem convertBlocks_ctr_le (info : ShaderInfo) (opts : Options)
    (db rbs : List Block) (ctr : Nat) (prog : Bool) :
    ctr ≤ (convertBlocks info opts db rbs ctr prog).2.1 := by
  induction db, rbs, ctr, prog using convertBlocks.induct info opts with
  | case1 db ctr prog => simp [convertBlocks]
  | case2 db ctr prog b bs db2 done2 rbs2 ctr2 prog2 heq ih =>
    rw [convertBlocks, heq]
    have hc := convertInstrs_ctr_le info opts db [] b bs ctr prog
    rw [heq] at hc
    simp at hc
    exact le_trans hc ih

theorem convertBlocks_progress (info : ShaderInfo) (opts : Options)
    (db rbs : List Block) (ctr : Nat) (prog : Bool) :
    (convertBlocks info opts db rbs ctr prog).2.2
      = (prog || rbs.any (fun b => b.any Instr.isSysvalLoad)) := by
  induction db, rbs, ctr, prog using convertBlocks.induct info opts with
  | case1 db ctr prog => simp [convertBlocks]
  | case2 db ctr prog b bs db2 done2 rbs2 ctr2 prog2 heq ih =>
    rw [convertBlocks, heq]
    have hp := convertInstrs_progress info opts db [] b bs ctr prog
    have ha := convertInstrs_rbs_any info opts db [] b bs ctr prog
    rw [heq] at hp ha
    simp only [] at hp ha
    rw [ih, hp, ha]
    simp [Bool.or_assoc]

theorem convertBlocks_noUse (info : ShaderInfo) (opts : Options)
    (db rbs : List Block) (ctr : Nat) (prog : Bool) (d : Nat) :
    d < ctr →
    (∀ b ∈ db, ∀ i ∈ b, d ∉ i.uses) →
    (∀ b ∈ rbs, ∀ i ∈ b, d ∉ i.uses) →
    ∀ b ∈ (convertBlocks info opts db rbs ctr prog).1, ∀ i ∈ b,
      d ∉ i.uses := by
  induction db, rbs, ctr, prog using convertBlocks.induct info opts with
  | case1 db ctr prog =>
    intro _ hdb _
    rw [convertBlocks]
    exact hdb
  | case2 db ctr prog b bs db2 done2 rbs2 ctr2 prog2 heq ih =>
    intro hlt hdb hrbs
    rw [convertBlocks, heq]
    have hc := convertInstrs_ctr_le info opts db [] b bs ctr prog
    rw [heq] at hc
    simp only [] at hc
    obtain ⟨h1, h2, h3⟩ := convertInstrs_noUse info opts db [] b bs ctr prog d
      hlt hdb (by simp) (hrbs b (List.mem_cons_self _ _))
      (fun b' hb' => hrbs b' (List.mem_cons_of_mem _ hb'))
    rw [heq] at h1 h2 h3
    simp only [] at h1 h2 h3
    refine ih (lt_of_lt_of_le hlt hc) ?_ h3
    intro bb hbb
    rcases List.mem_append.mp hbb with hbb | hbb
    · exact h1 bb hbb
    · rw [List.mem_singleton.mp hbb]
      exact h2

theorem convertBlocks_kill (info : ShaderInfo) (opts : Options)
    (db rbs : List Block) (ctr : Nat) (prog : Bool) (d : Nat)
    (var : Variable) :
    var.mode = VarMode.systemValue →
    d < ctr →
    (∃ b ∈ rbs, Instr.loadVar d var ∈ b) →
    ∀ b ∈ (convertBlocks info opts db rbs ctr prog).1, ∀ i ∈ b,
      d ∉ i.uses := by
  induction db, rbs, ctr, prog using convertBlocks.induct info opts with
  | case1 db ctr prog =>
    intro _ _ hmem
    rcases hmem with ⟨b, hb, _⟩
    exact absurd hb (List.not_mem_nil _)
  | case2 db ctr prog b bs db2 done2 rbs2 ctr2 prog2 heq ih =>
    intro hv hlt hmem
    rw [convertBlocks, heq]
    have hc := convertInstrs_ctr_le info opts db [] b bs ctr prog
    rw [heq] at hc
    simp only [] at hc
    rcases hmem with ⟨b', hb', hmemb⟩
    rcases List.mem_cons.mp hb' with rfl | hb2
    · obtain ⟨k1, k2, k3⟩ := convertInstrs_kill info opts db [] b' bs ctr prog
        d var hv hlt hmemb
      rw [heq] at k1 k2 k3
      simp only [] at k1 k2 k3
      refine convertBlocks_noUse info opts (db2 ++ [done2]) rbs2 ctr2 prog2 d
        (lt_of_lt_of_le hlt hc) ?_ k3
      intro bb hbb
      rcases List.mem_append.mp hbb with hbb | hbb
      · exact k1 bb hbb
      · rw [List.mem_singleton.mp hbb]
        exact k2
    · have hm2 := convertInstrs_rbs_mem info opts db [] b bs ctr prog d var
        ⟨b', hb2, hmemb⟩
      rw [heq] at hm2
      simp only [] at hm2
      exact ih hv (lt_of_lt_of_le hlt hc) hm2

theorem convertBlocks_free (info : ShaderInfo) (opts : Options)
    (db rbs : List Block) (ctr : Nat) (prog : Bool) :
    (∀ b ∈ db, ∀ i ∈ b, i.isSysvalLoad = false) →
    ∀ b ∈ (convertBlocks info opts db rbs ctr prog).1, ∀ i ∈ b,
      i.isSysvalLoad = false := by
  induction db, rbs, ctr, prog using convertBlocks.induct info opts with
  | case1 db ctr prog =>
    intro hdb
    rw [convertBlocks]
    exact hdb
  | case2 db ctr prog b bs db2 done2 rbs2 ctr2 prog2 heq ih =>
    intro hdb
    rw [convertBlocks, heq]
    obtain ⟨f1, f2⟩ := convertInstrs_free info opts db [] b bs ctr prog hdb
      (by simp)
    rw [heq] at f1 f2
    simp only [] at f1 f2
    refine ih ?_
    intro bb hbb
    rcases List.mem_append.mp hbb with hbb | hbb
    · exact f1 bb hbb
    · rw [List.mem_singleton.mp hbb]
      exact f2

theorem convertBlocks_id (info : ShaderInfo) (opts : Options)
    (db rbs : List Block) (ctr : Nat) (prog : Bool) :
    (∀ b ∈ rbs, ∀ i ∈ b, i.isSysvalLoad = false) →
    convertBlocks info opts db rbs ctr prog = (db ++ rbs, ctr, prog) := by
  induction db, rbs, ctr, prog using convertBlocks.induct info opts with
  | case1 db ctr prog =>
    intro _
    rw [convertBlocks]
    simp
  | case2 db ctr prog b bs db2 done2 rbs2 ctr2 prog2 heq ih =>
    intro hfree
    have hid := convertInstrs_id info opts db [] b bs ctr prog
      (hfree b (List.mem_cons_self _ _))
    rw [heq] at hid
    obtain ⟨h1, h2, h3, h4, h5⟩ :
        db2 = db ∧ done2 = b ∧ rbs2 = bs ∧ ctr2 = ctr ∧ prog2 = prog := by
      simpa [Prod.ext_iff] using hid
    subst h1
    subst h2
    subst h3
    subst h4
    subst h5
    rw [convertBlocks, heq]
    exact (ih (fun b' hb' => hfree b' (List.mem_cons_of_mem _ hb'))).trans
      (by simp)

theorem Metadata.preserve_idem (m mask : Metadata) :
    Metadata.preserve (Metadata.preserve m mask) mask
      = Metadata.preserve m mask := by
  cases m
  cases mask
  simp [Metadata.preserve, Bool.and_assoc]

theorem convert_impl_progress (info : ShaderInfo) (opts : Options)
    (impl : FunctionImpl) :
    (convert_impl info opts impl).2
      = impl.blocks.any (fun b => b.any Instr.isSysvalLoad) := by
  show (convertBlocks info opts [] impl.blocks impl.ssaAlloc false).2.2 = _
  rw [convertBlocks_progress]
  simp

theorem convert_impl_free (info : ShaderInfo) (opts : Options)
    (impl : FunctionImpl) :
    ∀ b ∈ (convert_impl info opts impl).1.blocks, ∀ i ∈ b,
      i.isSysvalLoad = false := by
  show ∀ b ∈ (convertBlocks info opts [] impl.blocks impl.ssaAlloc false).1,
    ∀ i ∈ b, i.isSysvalLoad = false
  exact convertBlocks_free info opts [] impl.blocks impl.ssaAlloc false
    (by simp)

theorem convert_impl_id (info : ShaderInfo) (opts : Options)
    (impl : FunctionImpl)
    (hfree : ∀ b ∈ impl.blocks, ∀ i ∈ b, i.isSysvalLoad = false)
    (hmeta : Metadata.preserve impl.validMetadata blockIndexDominanceMask
      = impl.validMetadata) :
    convert_impl info opts impl = (impl, false) := by
  unfold convert_impl
  rw [convertBlocks_id info opts [] impl.blocks impl.ssaAlloc false hfree]
  simp [hmeta]

theorem convert_impl_stable (info : ShaderInfo) (opts : Options)
    (impl : FunctionImpl) :
    convert_impl info opts (convert_impl info opts impl).1
      = ((convert_impl info opts impl).1, false) := by
  refine convert_impl_id info opts _ (convert_impl_free info opts impl) ?_
  show Metadata.preserve
      (Metadata.preserve impl.validMetadata blockIndexDominanceMask)
      blockIndexDominanceMask = _
  rw [Metadata.preserve_idem]
  exact rfl

theorem lowerFunctions_functions (info : ShaderInfo) (opts : Options)
    (fns : List NirFunction) :
    (lowerFunctions info opts fns).1
      = fns.map (fun f =>
          match f.impl with
          | some impl => { f with impl := some (convert_impl info opts impl).1 }
          | none => f) := by
  induction fns with
  | nil => rfl
  | cons f fs ih => cases hf : f.impl <;> simp [lowerFunctions, hf, ih]

theorem lowerFunctions_progress (info : ShaderInfo) (opts : Options)
    (fns : List NirFunction) :
    (lowerFunctions info opts fns).2
      = fns.any (fun f =>
          match f.impl with
          | some impl => impl.blocks.any (fun b => b.any Instr.isSysvalLoad)
          | none => false) := by
  induction fns with
  | nil => rfl
  | cons f fs ih =>
    cases hf : f.impl <;>
      simp [lowerFunctions, hf, ih, convert_impl_progress]

theorem lowerFunctions_stable (info : ShaderInfo) (opts : Options)
    (fns : List NirFunction) :
    lowerFunctions info opts (lowerFunctions info opts fns).1
      = ((lowerFunctions info opts fns).1, false) := by
  induction fns with
  | nil => rfl
  | cons f fs ih =>
    cases hf : f.impl with
    | none => simp [lowerFunctions, hf, ih]
    | some impl => simp [lowerFunctions, hf, ih, convert_impl_stable]

/-- C1: for every rewritten variable read of the global-invocation-id system
value, the inserted replacement computes, componentwise over 3-component
vectors in 32-bit arithmetic, `group_id * local_size + local_invocation_id`,
where the local size is the compile-time 3-component workgroup size from the
shader metadata and group id and local invocation id come from the newly
inserted lower-level intrinsic reads. -/
theorem globalInvocationId_replacement_value (info : ShaderInfo)
    (opts : Options) (env : SysEnv) (vals : Nat → List Nat) (ctr : Nat)
    (g0 g1 g2 l0 l1 l2 : Nat)
    (hg : env.workGroupId = [g0, g1, g2])
    (hl : env.localInvocationId = [l0, l1, l2]) :
    evalInstrs env vals
        (buildSysval info opts SystemValueKind.globalInvocationId ctr).1
        (buildSysval info opts SystemValueKind.globalInvocationId ctr).2.2
      = [(g0 * info.localSize0 + l0) % u32Mod,
         (g1 * info.localSize1 + l1) % u32Mod,
         (g2 * info.localSize2 + l2) % u32Mod] := by
  simp +arith [buildSysval, evalInstrs, evalInstr, updateVal, evalIntrin,
    evalAlu, hg, hl]

/-- Witness for C1: with workgroup size (8,1,1), group id (2,0,0) and local
invocation id (3,0,0) the computed replacement value is (19,0,0). -/
theorem globalInvocationId_replacement_value_witness :
    evalInstrs
        { workGroupId := [2, 0, 0], localInvocationId := [3, 0, 0],
          vertexIdZeroBase := 0, baseVertex := 0, vertexId := 0,
          instanceId := 0, baseInstance := 0, mapped := fun _ => 0,
          ambient := fun _ => [] }
        (fun _ => [])
        (buildSysval ⟨8, 1, 1⟩ ⟨false⟩
          SystemValueKind.globalInvocationId 0).1
        (buildSysval ⟨8, 1, 1⟩ ⟨false⟩
          SystemValueKind.globalInvocationId 0).2.2
      = [19, 0, 0] := by
  rw [globalInvocationId_replacement_value ⟨8, 1, 1⟩ ⟨false⟩ _ _ 0
    2 0 0 3 0 0 rfl rfl]
  simp [u32Mod]

/-- C2: for every rewritten variable read of the local-invocation-index
system value, the inserted replacement computes, in 32-bit arithmetic,
`local_id.z * size_x * size_y + local_id.y * size_x + local_id.x`, the
x-fastest-varying flattening of the 3-D index, with the scalar sizes taken
from shader metadata and the local id from a newly inserted intrinsic read. -/
theorem localInvocationIndex_replacement_value (info : ShaderInfo)
    (opts : Options) (env : SysEnv) (vals : Nat → List Nat) (ctr : Nat)
    (lx ly lz : Nat)
    (hl : env.localInvocationId = [lx, ly, lz]) :
    evalInstrs env vals
        (buildSysval info opts SystemValueKind.localInvocationIndex ctr).1
        (buildSysval info opts SystemValueKind.localInvocationIndex ctr).2.2
      = [(lz * info.localSize0 * info.localSize1 + ly * info.localSize0 + lx)
          % u32Mod] := by
  simp +arith [buildSysval, evalInstrs, evalInstr, updateVal, evalIntrin,
    evalAlu, hl]
  simp [Nat.add_mod, Nat.mul_mod, Nat.mul_assoc]

/-- Witness for C2: with local size (4,4,1) and local invocation id
(x=1, y=2, z=0) the computed flattened index is 0*4*4 + 2*4 + 1 = 9. -/
theorem localInvocationIndex_replacement_value_witness :
    evalInstrs
        { workGroupId := [0, 0, 0], localInvocationId := [1, 2, 0],
          vertexIdZeroBase := 0, baseVertex := 0, vertexId := 0,
          instanceId := 0, baseInstance := 0, mapped := fun _ => 0,
          ambient := fun _ => [] }
        (fun _ => [])
        (buildSysval ⟨4, 4, 1⟩ ⟨false⟩
          SystemValueKind.localInvocationIndex 0).1
        (buildSysval ⟨4, 4, 1⟩ ⟨false⟩
          SystemValueKind.localInvocationIndex 0).2.2
      = [9] := by
  rw [localInvocationIndex_replacement_value ⟨4, 4, 1⟩ ⟨false⟩ _ _ 0
    1 2 0 rfl]
  simp [u32Mod]

/-- C3: for every rewritten variable read of the vertex-id system value, if
the driver option requesting zero-based vertex ids is set the replacement is
the 32-bit sum of two newly inserted intrinsic reads
(`vertex_id_zero_base + base_vertex`), and otherwise it is a single newly
inserted read of the non-adjusted vertex id, whose value does not involve
the base vertex; with zero-based vertex id 5 and base vertex 100 the result
is 105. -/
theorem vertexId_replacement_value (info : ShaderInfo) (opts : Options)
    (env : SysEnv) (vals : Nat → List Nat) (ctr : Nat) :
    (buildSysval info opts SystemValueKind.vertexId ctr
        = if opts.vertexIdZeroBased then
            ([ Instr.intrin ctr IntrinsicOp.loadVertexIdZeroBase,
               Instr.intrin (ctr + 1) IntrinsicOp.loadBaseVertex,
               Instr.alu (ctr + 2) AluOp.iadd ctr (ctr + 1) ],
             ctr + 3, ctr + 2)
          else ([ Instr.intrin ctr IntrinsicOp.loadVertexId ],
             ctr + 1, ctr)) ∧
    (evalInstrs env vals
        (buildSysval info opts SystemValueKind.vertexId ctr).1
        (buildSysval info opts SystemValueKind.vertexId ctr).2.2
      = if opts.vertexIdZeroBased then
          [(env.vertexIdZeroBase + env.baseVertex) % u32Mod]
        else [env.vertexId]) ∧
    (evalInstrs
        { workGroupId := [0, 0, 0], localInvocationId := [0, 0, 0],
          vertexIdZeroBase := 5, baseVertex := 100, vertexId := 0,
          instanceId := 0, baseInstance := 0, mapped := fun _ => 0,
          ambient := fun _ => [] }
        (fun _ => [])
        (buildSysval info ⟨true⟩ SystemValueKind.vertexId ctr).1
        (buildSysval info ⟨true⟩ SystemValueKind.vertexId ctr).2.2
      = [105]) := by
  refine ⟨by by_cases h : opts.vertexIdZeroBased <;> simp [buildSysval, h],
    ?_, ?_⟩
  · by_cases h : opts.vertexIdZeroBased <;>
      simp +arith [buildSysval, evalInstrs, evalInstr, updateVal, evalIntrin,
        evalAlu, h]
  · simp +arith [buildSysval, evalInstrs, evalInstr, updateVal, evalIntrin,
      evalAlu, u32Mod]

/-- C4: for every rewritten variable read of the instance-index system
value, the replacement is always the 32-bit sum of two newly inserted
intrinsic reads, `instance_id + base_instance`, for every shader and every
driver-option setting; with instance id 3 and base instance 10 the result is
13. -/
theorem instanceIndex_replacement_value (info : ShaderInfo) (opts : Options)
    (env : SysEnv) (vals : Nat → List Nat) (ctr : Nat) :
    (evalInstrs env vals
        (buildSysval info opts SystemValueKind.instanceIndex ctr).1
        (buildSysval info opts SystemValueKind.instanceIndex ctr).2.2
      = [(env.instanceId + env.baseInstance) % u32Mod]) ∧
    (evalInstrs
        { workGroupId := [0, 0, 0], localInvocationId := [0, 0, 0],
          vertexIdZeroBase := 0, baseVertex := 0, vertexId := 0,
          instanceId := 3, baseInstance := 10, mapped := fun _ => 0,
          ambient := fun _ => [] }
        (fun _ => [])
        (buildSysval info opts SystemValueKind.instanceIndex ctr).1
        (buildSysval info opts SystemValueKind.instanceIndex ctr).2.2
      = [13]) := by
  constructor
  · simp +arith [buildSysval, evalInstrs, evalInstr, updateVal, evalIntrin,
      evalAlu]
  · simp +arith [buildSysval, evalInstrs, evalInstr, updateVal, evalIntrin,
      evalAlu, u32Mod]

/-- C5: for every rewritten variable read of a system-value kind other than
the four special-cased ones, the replacement is exactly one newly inserted
intrinsic read whose kind is the mapping-table image of the system-value
kind, with no arithmetic, and its value is the value delivered by that
mapped intrinsic. -/
theorem otherSysval_replacement_single_intrinsic (info : ShaderInfo)
    (opts : Options) (n ctr : Nat) (env : SysEnv) (vals : Nat → List Nat) :
    buildSysval info opts (SystemValueKind.other n) ctr
        = ([Instr.intrin ctr (IntrinsicOp.fromSystemValue n)], ctr + 1, ctr)
      ∧ evalInstrs env vals
          (buildSysval info opts (SystemValueKind.other n) ctr).1
          (buildSysval info opts (SystemValueKind.other n) ctr).2.2
        = [env.mapped n] := by
  simp [buildSysval, evalInstrs, evalInstr, updateVal, evalIntrin]

/-- C6: the top-level pass runs the per-function rewrite on every function
that has an implementation (leaving functions without one untouched), and
its returned progress flag is true exactly when some function with an
implementation contains a system-value variable read (the logical OR of the
per-function progress flags); in particular a shader with no system-value
reads reports no progress. -/
theorem lower_system_values_functions_progress (sh : Shader) :
    (nir_lower_system_values sh).1.functions
        = sh.functions.map (fun f =>
            match f.impl with
            | some impl =>
                { f with impl := some (convert_impl sh.info sh.options impl).1 }
            | none => f) ∧
    (nir_lower_system_values sh).2
        = sh.functions.any (fun f =>
            match f.impl with
            | some impl =>
                impl.blocks.any (fun b => b.any Instr.isSysvalLoad)
            | none => false) :=
  ⟨lowerFunctions_functions sh.info sh.options sh.functions,
   lowerFunctions_progress sh.info sh.options sh.functions⟩

/-- C7: for every rewritten system-value read, all former uses of the
removed instruction's destination are redirected before removal, so no
instruction remaining in the processed function references the removed
definition as a use; the hypothesis `d < impl.ssaAlloc` is the
single-assignment input contract that the read's destination was allocated
by the implementation. -/
theorem convert_impl_no_dangling_uses (info : ShaderInfo) (opts : Options)
    (impl : FunctionImpl) (d : Nat) (var : Variable)
    (hv : var.mode = VarMode.systemValue)
    (hd : d < impl.ssaAlloc)
    (hmem : ∃ b ∈ impl.blocks, Instr.loadVar d var ∈ b) :
    ∀ b ∈ (convert_impl info opts impl).1.blocks, ∀ i ∈ b,
      d ∉ i.uses := by
  show ∀ b ∈ (convertBlocks info opts [] impl.blocks impl.ssaAlloc false).1,
    ∀ i ∈ b, d ∉ i.uses
  exact convertBlocks_kill info opts [] impl.blocks impl.ssaAlloc false d var
    hv hd hmem

/-- Witness for C7: a function with one block holding a system-value read
(destination 0) and a consumer of it; after the pass no instruction uses
definition 0. -/
theorem convert_impl_no_dangling_uses_witness :
    ((convert_impl ⟨1, 1, 1⟩ ⟨false⟩
        { blocks :=
            [[ Instr.loadVar 0
                 ⟨VarMode.systemValue, SystemValueKind.other 7⟩,
               Instr.otherInstr 1 [0] ]],
          edges := [], ssaAlloc := 2,
          validMetadata := ⟨true, true, true⟩ }).1.blocks.all
      (fun b => b.all (fun i => decide (0 ∉ i.uses)))) = true := by
  have h := convert_impl_no_dangling_uses ⟨1, 1, 1⟩ ⟨false⟩
    { blocks :=
        [[ Instr.loadVar 0 ⟨VarMode.systemValue, SystemValueKind.other 7⟩,
           Instr.otherInstr 1 [0] ]],
      edges := [], ssaAlloc := 2,
      validMetadata := ⟨true, true, true⟩ } 0
    ⟨VarMode.systemValue, SystemValueKind.other 7⟩ rfl (by decide)
    ⟨[ Instr.loadVar 0 ⟨VarMode.systemValue, SystemValueKind.other 7⟩,
       Instr.otherInstr 1 [0] ], by decide, by decide⟩
  simp only [List.all_eq_true, decide_eq_true_iff]
  exact h

/-- C8: at the end of every full-shader run the declared system-value
variable list of the shader is cleared unconditionally, whatever it
contained before and whether or not any rewrite occurred. -/
theorem lower_system_values_clears_declared_list (sh : Shader) :
    (nir_lower_system_values sh).1.systemValues = [] := rfl

/-- C9: processing a function never creates or removes basic blocks or
control-flow edges - the block count and the edge set are unchanged - and
the block-index and dominance metadata validity flags are preserved exactly,
whether or not any rewrite occurred. -/
theorem convert_impl_preserves_structure_and_metadata (info : ShaderInfo)
    (opts : Options) (impl : FunctionImpl) :
    (convert_impl info opts impl).1.blocks.length = impl.blocks.length ∧
    (convert_impl info opts impl).1.edges = impl.edges ∧
    (convert_impl info opts impl).1.validMetadata.blockIndex
      = impl.validMetadata.blockIndex ∧
    (convert_impl info opts impl).1.validMetadata.dominance
      = impl.validMetadata.dominance := by
  refine ⟨?_, rfl, ?_, ?_⟩
  · show (convertBlocks info opts [] impl.blocks impl.ssaAlloc false).1.length
      = _
    rw [convertBlocks_length]
    simp
  · show (Metadata.preserve impl.validMetadata
      blockIndexDominanceMask).blockIndex = _
    simp [Metadata.preserve, blockIndexDominanceMask]
  · show (Metadata.preserve impl.validMetadata
      blockIndexDominanceMask).dominance = _
    simp [Metadata.preserve, blockIndexDominanceMask]

/-- C10: the pass is idempotent: running it again on the output of a first
run changes nothing and reports no progress, because the first run removed
every system-value variable read and inserted none. -/
theorem lower_system_values_idempotent (sh : Shader) :
    nir_lower_system_values (nir_lower_system_values sh).1
      = ((nir_lower_system_values sh).1, false) := by
  simp [nir_lower_system_values, lowerFunctions_stable]
